import Mathlib

/- Shallow embedding of src/main.py (class BinanceTradingBot).

   Python floats are modelled as exact rationals.  The Binance exchange
   client (self.client.futures_create_order and friends) is an injected
   oracle: for the single-order operations a function from the submitted
   request to an optional result, and for the Grid/TWAP loops a function
   from the call index (level / slice) to an optional result; `none` models
   an exception raised by the call (BinanceAPIException etc.).  The bot's
   mutable state (self.orders, self.order_history) is threaded explicitly.
   Timestamps written into history entries are not modelled (real time). -/

inductive OrderSide where
  | buy
  | sell
deriving DecidableEq

/- class OrderType(Enum) of src/main.py. -/
inductive OrderType where
  | market
  | limit
  | stop_limit
  | oco
  | grid
  | twap
deriving DecidableEq

def strGTC : String := "GTC"
def strBTC : String := "BTC"
def strbtc : String := "btc"
def strbtcusdt : String := "btcusdt"
def strBTCUSDT : String := "BTCUSDT"
def strBTCUSDTUSDT : String := "BTCUSDTUSDT"
def usdtSuffix : String := "USDT"

/- Python str.replace("USDT", "") removes every non-overlapping occurrence
   of the exact (case-sensitive) substring "USDT", scanning left to right
   and continuing after each removed occurrence. -/
def stripUSDT : List Char → List Char
  | 'U' :: 'S' :: 'D' :: 'T' :: rest => stripUSDT rest
  | c :: rest => c :: stripUSDT rest
  | [] => []

/- The expression `symbol.replace("USDT", "").upper() + "USDT"` that every
   caller-facing operation of src/main.py applies to its symbol argument.
   Char.toUpper agrees with Python str.upper on the ASCII inputs used here. -/
def clean_symbol (symbol : String) : String :=
  String.mk (((stripUSDT symbol.data).map Char.toUpper) ++ usdtSuffix.data)

/- Exchange order result; only the exchange-assigned id matters for the
   ledger bookkeeping in src/main.py. -/
structure OrderResult where
  orderId : ℕ
deriving DecidableEq

/- The keyword arguments handed to self.client.futures_create_order. -/
structure OrderRequest where
  symbol : String
  side : OrderSide
  otype : OrderType
  quantity : ℚ
  price : Option ℚ := none
  stopPrice : Option ℚ := none
  stopLimitPrice : Option ℚ := none
  timeInForce : Option String := none
  stopLimitTimeInForce : Option String := none
deriving DecidableEq

/- One element appended to self.order_history: the order result plus the
   locally synthesized keys (order_type, grid_level / slice_number,
   stop_price).  The timestamp key is not modelled. -/
structure LedgerEntry where
  result : OrderResult
  order_type : OrderType
  index : Option ℕ := none
  stop_price : Option ℚ := none
deriving DecidableEq

/- self.orders (dict keyed by orderId) and self.order_history (list). -/
structure BotLedger where
  orders : List (ℕ × OrderResult) := []
  order_history : List LedgerEntry := []
deriving DecidableEq

/- Python dict insertion semantics: overwrite the existing key in place,
   otherwise append. -/
def dictInsert (k : ℕ) (v : OrderResult) : List (ℕ × OrderResult) → List (ℕ × OrderResult)
  | [] => [(k, v)]
  | p :: rest => if p.1 = k then (k, v) :: rest else p :: dictInsert k v rest

/- self.orders[order["orderId"]] = order; self.order_history.append({...}). -/
def recordOrder (st : BotLedger) (r : OrderResult) (e : LedgerEntry) : BotLedger :=
  { orders := dictInsert r.orderId r st.orders,
    order_history := st.order_history ++ [e] }

def insertResults (m : List (ℕ × OrderResult)) (rs : List OrderResult) :
    List (ℕ × OrderResult) :=
  rs.foldl (fun acc r => dictInsert r.orderId r acc) m

/- place_market_order: no parameter validation; one futures_create_order
   call; on success record and return the order, on exception return None.
   The third component lists every request actually sent to the client. -/
def place_market_order (ex : OrderRequest → Option OrderResult) (st : BotLedger)
    (symbol : String) (side : OrderSide) (quantity : ℚ) :
    Option OrderResult × BotLedger × List OrderRequest :=
  let req : OrderRequest :=
    { symbol := clean_symbol symbol, side := side, otype := OrderType.market,
      quantity := quantity }
  (ex req,
   (match ex req with
    | some r => recordOrder st r { result := r, order_type := OrderType.market }
    | none => st),
   [req])

/- place_limit_order of src/main.py. -/
def place_limit_order (ex : OrderRequest → Option OrderResult) (st : BotLedger)
    (symbol : String) (side : OrderSide) (quantity price : ℚ)
    (time_in_force : String) :
    Option OrderResult × BotLedger × List OrderRequest :=
  let req : OrderRequest :=
    { symbol := clean_symbol symbol, side := side, otype := OrderType.limit,
      quantity := quantity, price := some price,
      timeInForce := some time_in_force }
  (ex req,
   (match ex req with
    | some r => recordOrder st r { result := r, order_type := OrderType.limit }
    | none => st),
   [req])

/- place_stop_limit_order of src/main.py. -/
def place_stop_limit_order (ex : OrderRequest → Option OrderResult) (st : BotLedger)
    (symbol : String) (side : OrderSide) (quantity price stop_price : ℚ)
    (time_in_force : String) :
    Option OrderResult × BotLedger × List OrderRequest :=
  let req : OrderRequest :=
    { symbol := clean_symbol symbol, side := side, otype := OrderType.stop_limit,
      quantity := quantity, price := some price, stopPrice := some stop_price,
      timeInForce := some time_in_force }
  (ex req,
   (match ex req with
    | some r => recordOrder st r
        { result := r, order_type := OrderType.stop_limit,
          stop_price := some stop_price }
    | none => st),
   [req])

/- place_oco_order of src/main.py: stop_limit_price defaults to stop_price
   when None; a single combined request of type LIMIT is submitted. -/
def place_oco_order (ex : OrderRequest → Option OrderResult) (st : BotLedger)
    (symbol : String) (side : OrderSide) (quantity price stop_price : ℚ)
    (stop_limit_price : Option ℚ) :
    Option OrderResult × BotLedger × List OrderRequest :=
  let req : OrderRequest :=
    { symbol := clean_symbol symbol, side := side, otype := OrderType.limit,
      quantity := quantity, price := some price, stopPrice := some stop_price,
      stopLimitPrice := some (stop_limit_price.getD stop_price),
      timeInForce := some strGTC, stopLimitTimeInForce := some strGTC }
  (ex req,
   (match ex req with
    | some r => recordOrder st r
        { result := r, order_type := OrderType.oco, stop_price := some stop_price }
    | none => st),
   [req])

/- The quantization applied to each grid price in place_grid_order:
   float(Decimal(str(price)).quantize(Decimal('0.01'), rounding=ROUND_DOWN)).
   ROUND_DOWN is rounding toward zero; the tick size is the fixed literal
   0.01 (the exponent of Decimal('0.01')). -/
def ratTowardZero (q : ℚ) : ℤ := if 0 ≤ q then ⌊q⌋ else ⌈q⌉

def quantizePrice (price : ℚ) : ℚ := ((ratTowardZero (price * 100) : ℤ) : ℚ) / 100

/- Per-level price of place_grid_order: BUY levels descend, SELL ascend. -/
def gridLevelPrice (side : OrderSide) (base pct : ℚ) (level : ℕ) : ℚ :=
  match side with
  | OrderSide.buy => quantizePrice (base * (1 - ((level : ℚ) * pct / 100)))
  | OrderSide.sell => quantizePrice (base * (1 + ((level : ℚ) * pct / 100)))

/- The LIMIT request built for grid level `level` (0-based). -/
def gridRequest (symbol : String) (side : OrderSide) (quantity base : ℚ)
    (gridLevels : ℕ) (pct : ℚ) (level : ℕ) : OrderRequest :=
  { symbol := clean_symbol symbol, side := side, otype := OrderType.limit,
    quantity := quantity / (gridLevels : ℚ),
    price := some (gridLevelPrice side base pct level),
    timeInForce := some strGTC }

/- The full decomposition of a grid intent into its N order requests. -/
def gridRequests (symbol : String) (side : OrderSide) (quantity base : ℚ)
    (gridLevels : ℕ) (pct : ℚ) : List OrderRequest :=
  (List.range gridLevels).map (gridRequest symbol side quantity base gridLevels pct)

/- Observable actions of the TWAP loop: a futures_create_order call for
   slice k (1-based) and a time.sleep of the given number of seconds. -/
inductive TwapEvent where
  | submit (sliceNumber : ℕ)
  | wait (seconds : ℚ)
deriving DecidableEq

/- State accumulated over one strategy run: the bot ledger, the local list
   returned to the caller, every request sent, and (for TWAP) the events. -/
structure RunState where
  ledger : BotLedger := {}
  returned : List OrderResult := []
  requests : List OrderRequest := []
  events : List TwapEvent := []
deriving DecidableEq

/- The loop body of place_grid_order.  The whole loop sits in one Python
   try block: an exception at any level is caught at function level and the
   function returns [], while self.orders / self.order_history keep every
   record appended before the failure. -/
def gridGo (ex : ℕ → Option OrderResult) (symbol : String) (side : OrderSide)
    (quantity base : ℚ) (gridLevels : ℕ) (pct : ℚ) :
    ℕ → ℕ → RunState → RunState
  | _, 0, st => st
  | level, rem+1, st =>
    let req := gridRequest symbol side quantity base gridLevels pct level
    let st1 : RunState := { st with requests := st.requests ++ [req] }
    match ex level with
    | some r =>
        gridGo ex symbol side quantity base gridLevels pct (level+1) rem
          { st1 with
              ledger := recordOrder st1.ledger r
                { result := r, order_type := OrderType.grid, index := some (level+1) },
              returned := st1.returned ++ [r] }
    | none => { st1 with returned := [] }

/- place_grid_order of src/main.py, run against the exchange oracle `ex`
   (indexed by 0-based level). -/
def place_grid_order (ex : ℕ → Option OrderResult) (symbol : String)
    (side : OrderSide) (quantity base : ℚ) (gridLevels : ℕ) (pct : ℚ) : RunState :=
  gridGo ex symbol side quantity base gridLevels pct 0 gridLevels {}

/- The MARKET request built for every TWAP slice. -/
def twapRequest (symbol : String) (side : OrderSide) (total : ℚ)
    (numSlices : ℕ) : OrderRequest :=
  { symbol := clean_symbol symbol, side := side, otype := OrderType.market,
    quantity := total / (numSlices : ℚ) }

/- Events emitted by one successful TWAP loop iteration at slice s
   (0-based): the submission, then a sleep unless s < numSlices - 1 fails
   (the code's `if slice_num < num_slices - 1` guard). -/
def twapStepEvents (numSlices : ℕ) (interval : ℚ) (s : ℕ) : List TwapEvent :=
  TwapEvent.submit (s+1) :: (if s < numSlices - 1 then [TwapEvent.wait interval] else [])

/- The loop body of place_twap_order.  As for the grid, the whole loop is
   inside one try block: an exception on any slice is caught at function
   level and [] is returned, while the ledger keeps the prior records. -/
def twapGo (ex : ℕ → Option OrderResult) (symbol : String) (side : OrderSide)
    (total : ℚ) (numSlices : ℕ) (interval : ℚ) :
    ℕ → ℕ → RunState → RunState
  | _, 0, st => st
  | s, rem+1, st =>
    let req := twapRequest symbol side total numSlices
    let st1 : RunState :=
      { st with requests := st.requests ++ [req],
                events := st.events ++ [TwapEvent.submit (s+1)] }
    match ex s with
    | some r =>
        let st2 : RunState :=
          { st1 with
              ledger := recordOrder st1.ledger r
                { result := r, order_type := OrderType.twap, index := some (s+1) },
              returned := st1.returned ++ [r] }
        let st3 : RunState :=
          { st2 with events := st2.events ++
              (if s < numSlices - 1 then [TwapEvent.wait interval] else []) }
        twapGo ex symbol side total numSlices interval (s+1) rem st3
    | none => { st1 with returned := [] }

/- place_twap_order of src/main.py, run against the exchange oracle `ex`
   (indexed by 0-based slice number). -/
def place_twap_order (ex : ℕ → Option OrderResult) (symbol : String)
    (side : OrderSide) (total : ℚ) (numSlices : ℕ) (interval : ℚ) : RunState :=
  twapGo ex symbol side total numSlices interval 0 numSlices {}

/- Modelled from the spec: the TWAP submission/pacing schedule the spec
   demands (submissions 1..N in order, a wait of intervalSeconds between
   slice k and k+1 for k+1 < N, no wait after the final slice).  Stated
   from the spec's words to be compared with the trace the code produces. -/
def twapScheduleSpec (numSlices : ℕ) (interval : ℚ) : List TwapEvent :=
  (List.range numSlices).flatMap (fun k =>
    TwapEvent.submit (k+1) :: (if k + 1 < numSlices then [TwapEvent.wait interval] else []))

/- The event trace of a TWAP run whose first failure is at 0-based slice j:
   j successful slices (each submit + wait) followed by the failing submit. -/
def twapFailTrace (interval : ℚ) (j : ℕ) : List TwapEvent :=
  (List.range j).flatMap (fun k => [TwapEvent.submit (k+1), TwapEvent.wait interval]) ++
    [TwapEvent.submit (j+1)]

/- Exchange oracle that fails (raises) exactly at call index j. -/
def failAt (j : ℕ) : ℕ → Option OrderResult :=
  fun i => if i = j then none else some ⟨i⟩

/- Exchange oracle that always succeeds. -/
def allOk : ℕ → Option OrderResult := fun i => some ⟨i⟩

/- The results returned by the oracle for calls lvl, lvl+1, ..., lvl+n-1
   (meaningful when all those calls succeed). -/
def okResults (ex : ℕ → Option OrderResult) (lvl n : ℕ) : List OrderResult :=
  (List.range n).map (fun i => (ex (lvl + i)).getD ⟨0⟩)

/- The history entries recorded for those calls, tagged with strategy t. -/
def ledgerEntriesFor (ex : ℕ → Option OrderResult) (t : OrderType) (lvl n : ℕ) :
    List LedgerEntry :=
  (List.range n).map (fun i =>
    { result := (ex (lvl + i)).getD ⟨0⟩, order_type := t, index := some (lvl + i + 1) })

/- The grid requests for levels lvl, lvl+1, ..., lvl+n-1. -/
def gridRequestsFrom (symbol : String) (side : OrderSide) (quantity base : ℚ)
    (gridLevels : ℕ) (pct : ℚ) (lvl n : ℕ) : List OrderRequest :=
  (List.range n).map (fun i => gridRequest symbol side quantity base gridLevels pct (lvl + i))

/- Helper lemmas. -/

lemma map_ext_fun {α β : Type} (l : List α) {f g : α → β} (h : ∀ a, f a = g a) :
    l.map f = l.map g :=
  congrArg (fun fn => l.map fn) (funext h)

lemma flatMap_ext_fun {α β : Type} (l : List α) {f g : α → List β}
    (h : ∀ a, f a = g a) : l.flatMap f = l.flatMap g :=
  congrArg (fun fn => l.flatMap fn) (funext h)

lemma map_range_shift {α : Type} (g : ℕ → α) (lvl j : ℕ) :
    (List.range (j+1)).map (fun i => g (lvl + i)) =
      g lvl :: (List.range j).map (fun i => g (lvl + 1 + i)) := by
  rw [List.range_succ_eq_map, List.map_cons, List.map_map]
  exact congrArg (List.cons _) (map_ext_fun _ (fun i => congrArg g (by omega)))

lemma flatMap_range_shift {α : Type} (g : ℕ → List α) (lvl j : ℕ) :
    (List.range (j+1)).flatMap (fun i => g (lvl + i)) =
      g lvl ++ (List.range j).flatMap (fun i => g (lvl + 1 + i)) := by
  rw [List.range_succ_eq_map, List.flatMap_cons, List.flatMap_map]
  exact congrArg (_ ++ ·) (flatMap_ext_fun _ (fun i => congrArg g (by omega)))

lemma okResults_succ (ex : ℕ → Option OrderResult) (lvl n : ℕ) :
    okResults ex lvl (n+1) = (ex lvl).getD ⟨0⟩ :: okResults ex (lvl+1) n :=
  map_range_shift (fun m => (ex m).getD ⟨0⟩) lvl n

lemma ledgerEntriesFor_succ (ex : ℕ → Option OrderResult) (t : OrderType) (lvl n : ℕ) :
    ledgerEntriesFor ex t lvl (n+1) =
      { result := (ex lvl).getD ⟨0⟩, order_type := t, index := some (lvl + 1) } ::
        ledgerEntriesFor ex t (lvl+1) n :=
  map_range_shift (fun m =>
    ({ result := (ex m).getD ⟨0⟩, order_type := t, index := some (m + 1) } : LedgerEntry)) lvl n

lemma gridRequestsFrom_succ (symbol : String) (side : OrderSide) (quantity base : ℚ)
    (gridLevels : ℕ) (pct : ℚ) (lvl n : ℕ) :
    gridRequestsFrom symbol side quantity base gridLevels pct lvl (n+1) =
      gridRequest symbol side quantity base gridLevels pct lvl ::
        gridRequestsFrom symbol side quantity base gridLevels pct (lvl+1) n :=
  map_range_shift (gridRequest symbol side quantity base gridLevels pct) lvl n

lemma okResults_length (ex : ℕ → Option OrderResult) (lvl n : ℕ) :
    (okResults ex lvl n).length = n := by
  simp [okResults]

lemma ledgerEntriesFor_length (ex : ℕ → Option OrderResult) (t : OrderType) (lvl n : ℕ) :
    (ledgerEntriesFor ex t lvl n).length = n := by
  simp [ledgerEntriesFor]

lemma ratTowardZero_intCast (k : ℤ) : ratTowardZero (k : ℚ) = k := by
  unfold ratTowardZero
  by_cases h : (0:ℚ) ≤ (k:ℚ)
  · rw [if_pos h, Int.floor_intCast]
  · rw [if_neg h, Int.ceil_intCast]

lemma ratTowardZero_mono {x y : ℚ} (h : x ≤ y) : ratTowardZero x ≤ ratTowardZero y := by
  unfold ratTowardZero
  by_cases hx : (0:ℚ) ≤ x
  · rw [if_pos hx, if_pos (le_trans hx h)]
    exact Int.floor_le_floor h
  · by_cases hy : (0:ℚ) ≤ y
    · rw [if_neg hx, if_pos hy]
      refine le_trans (b := 0) (Int.ceil_le.mpr ?_) (Int.le_floor.mpr ?_)
      · exact_mod_cast le_of_not_le hx
      · exact_mod_cast hy
    · rw [if_neg hx, if_neg hy]
      exact Int.ceil_le_ceil h

lemma quantizePrice_mono {x y : ℚ} (h : x ≤ y) : quantizePrice x ≤ quantizePrice y := by
  unfold quantizePrice
  have h1 : x * 100 ≤ y * 100 := by linarith
  have h2 : ((ratTowardZero (x * 100) : ℤ) : ℚ) ≤ ((ratTowardZero (y * 100) : ℤ) : ℚ) := by
    exact_mod_cast ratTowardZero_mono h1
  linarith

lemma quantizePrice_le {p : ℚ} (hp : 0 ≤ p) : quantizePrice p ≤ p := by
  unfold quantizePrice ratTowardZero
  rw [if_pos (by positivity : (0:ℚ) ≤ p * 100)]
  have h := Int.floor_le (p * 100)
  have h2 : ((⌊p * 100⌋ : ℤ) : ℚ) / 100 ≤ (p * 100) / 100 := by linarith
  calc ((⌊p * 100⌋ : ℤ) : ℚ) / 100 ≤ (p * 100) / 100 := h2
    _ = p := mul_div_cancel_right₀ p (by norm_num)

lemma quantizePrice_idem (p : ℚ) : quantizePrice (quantizePrice p) = quantizePrice p := by
  unfold quantizePrice
  rw [div_mul_cancel₀ _ (by norm_num : (100:ℚ) ≠ 0), ratTowardZero_intCast]

lemma insertResults_cons (m : List (ℕ × OrderResult)) (r : OrderResult)
    (rs : List OrderResult) :
    insertResults m (r :: rs) = insertResults (dictInsert r.orderId r m) rs := rfl

/- A grid run whose first `rem` levels (starting at `lvl`) all succeed:
   every level is submitted, recorded and returned, in order. -/
lemma gridGo_ok (ex : ℕ → Option OrderResult) (symbol : String) (side : OrderSide)
    (quantity base : ℚ) (N : ℕ) (pct : ℚ) :
    ∀ (rem lvl : ℕ) (st : RunState),
      (∀ i, i < rem → (ex (lvl + i)).isSome) →
      gridGo ex symbol side quantity base N pct lvl rem st =
        { ledger := { orders := insertResults st.ledger.orders (okResults ex lvl rem),
                      order_history :=
                        st.ledger.order_history ++ ledgerEntriesFor ex OrderType.grid lvl rem },
          returned := st.returned ++ okResults ex lvl rem,
          requests := st.requests ++ gridRequestsFrom symbol side quantity base N pct lvl rem,
          events := st.events } := by
  intro rem
  induction rem with
  | zero =>
      intro lvl st _h
      simp [gridGo, okResults, ledgerEntriesFor, gridRequestsFrom, insertResults]
  | succ rem ih =>
      intro lvl st h
      obtain ⟨r, hr⟩ := Option.isSome_iff_exists.mp (h 0 (Nat.succ_pos rem))
      rw [show lvl + 0 = lvl from rfl] at hr
      have hshift : ∀ i, i < rem → (ex (lvl + 1 + i)).isSome := by
        intro i hi
        have h2 := h (i+1) (by omega)
        rwa [show lvl + (i + 1) = lvl + 1 + i by omega] at h2
      simp only [gridGo, hr]
      rw [ih (lvl+1) _ hshift]
      simp only [okResults_succ, ledgerEntriesFor_succ, gridRequestsFrom_succ, hr,
        Option.getD_some, recordOrder, insertResults_cons]
      simp [List.append_assoc]

/- A grid run whose first failure is at level `lvl + j` (with `j < rem`
   levels left to attempt): the run aborts there, the caller gets [], and
   the ledger keeps the j records made before the failure. -/
lemma gridGo_fail (ex : ℕ → Option OrderResult) (symbol : String) (side : OrderSide)
    (quantity base : ℚ) (N : ℕ) (pct : ℚ) :
    ∀ (j rem lvl : ℕ) (st : RunState),
      (∀ i, i < j → (ex (lvl + i)).isSome) → j < rem → ex (lvl + j) = none →
      gridGo ex symbol side quantity base N pct lvl rem st =
        { ledger := { orders := insertResults st.ledger.orders (okResults ex lvl j),
                      order_history :=
                        st.ledger.order_history ++ ledgerEntriesFor ex OrderType.grid lvl j },
          returned := [],
          requests := st.requests ++ gridRequestsFrom symbol side quantity base N pct lvl (j+1),
          events := st.events } := by
  intro j
  induction j with
  | zero =>
      intro rem lvl st _h hlt hfail
      obtain ⟨rem', rfl⟩ : ∃ rem', rem = rem' + 1 := ⟨rem - 1, by omega⟩
      rw [show lvl + 0 = lvl from rfl] at hfail
      simp [gridGo, hfail, okResults, ledgerEntriesFor, insertResults, gridRequestsFrom,
        show List.range 1 = [0] from rfl]
  | succ j ih =>
      intro rem lvl st h hlt hfail
      obtain ⟨rem', rfl⟩ : ∃ rem', rem = rem' + 1 := ⟨rem - 1, by omega⟩
      obtain ⟨r, hr⟩ := Option.isSome_iff_exists.mp (h 0 (Nat.succ_pos j))
      rw [show lvl + 0 = lvl from rfl] at hr
      have hshift : ∀ i, i < j → (ex (lvl + 1 + i)).isSome := by
        intro i hi
        have h2 := h (i+1) (by omega)
        rwa [show lvl + (i + 1) = lvl + 1 + i by omega] at h2
      have hfail2 : ex (lvl + 1 + j) = none := by
        rwa [show lvl + (j+1) = lvl + 1 + j by omega] at hfail
      simp only [gridGo, hr]
      rw [ih rem' (lvl+1) _ hshift (by omega) hfail2]
      simp only [okResults_succ, ledgerEntriesFor_succ, gridRequestsFrom_succ, hr,
        Option.getD_some, recordOrder, insertResults_cons]
      simp [List.append_assoc]

lemma twapEvents_succ (numSlices : ℕ) (interval : ℚ) (s n : ℕ) :
    (List.range (n+1)).flatMap (fun i => twapStepEvents numSlices interval (s+i)) =
      twapStepEvents numSlices interval s ++
        (List.range n).flatMap (fun i => twapStepEvents numSlices interval (s+1+i)) :=
  flatMap_range_shift (twapStepEvents numSlices interval) s n

/- A TWAP run whose `rem` slices starting at `s` all succeed: every slice
   is submitted, recorded and returned in order, with the code's pacing
   events (a wait after each slice except when the `s < numSlices - 1`
   guard fails). -/
lemma twapGo_ok (ex : ℕ → Option OrderResult) (symbol : String) (side : OrderSide)
    (total : ℚ) (numSlices : ℕ) (interval : ℚ) :
    ∀ (rem s : ℕ) (st : RunState),
      (∀ i, i < rem → (ex (s + i)).isSome) →
      twapGo ex symbol side total numSlices interval s rem st =
        { ledger := { orders := insertResults st.ledger.orders (okResults ex s rem),
                      order_history :=
                        st.ledger.order_history ++ ledgerEntriesFor ex OrderType.twap s rem },
          returned := st.returned ++ okResults ex s rem,
          requests := st.requests ++ List.replicate rem (twapRequest symbol side total numSlices),
          events := st.events ++
            (List.range rem).flatMap (fun i => twapStepEvents numSlices interval (s+i)) } := by
  intro rem
  induction rem with
  | zero =>
      intro s st _h
      simp [twapGo, okResults, ledgerEntriesFor, insertResults]
  | succ rem ih =>
      intro s st h
      obtain ⟨r, hr⟩ := Option.isSome_iff_exists.mp (h 0 (Nat.succ_pos rem))
      rw [show s + 0 = s from rfl] at hr
      have hshift : ∀ i, i < rem → (ex (s + 1 + i)).isSome := by
        intro i hi
        have h2 := h (i+1) (by omega)
        rwa [show s + (i + 1) = s + 1 + i by omega] at h2
      simp only [twapGo, hr]
      rw [ih (s+1) _ hshift, twapEvents_succ]
      simp only [okResults_succ, ledgerEntriesFor_succ, hr,
        Option.getD_some, recordOrder, insertResults_cons, List.replicate_succ,
        twapStepEvents]
      simp [List.append_assoc]

/- A TWAP run whose first failure is at slice `s + j` (with `j < rem`
   slices left): the run aborts, the caller gets [], the ledger keeps the
   j records made before the failure, and no later slice is attempted. -/
lemma twapGo_fail (ex : ℕ → Option OrderResult) (symbol : String) (side : OrderSide)
    (total : ℚ) (numSlices : ℕ) (interval : ℚ) :
    ∀ (j rem s : ℕ) (st : RunState),
      (∀ i, i < j → (ex (s + i)).isSome) → j < rem → ex (s + j) = none →
      twapGo ex symbol side total numSlices interval s rem st =
        { ledger := { orders := insertResults st.ledger.orders (okResults ex s j),
                      order_history :=
                        st.ledger.order_history ++ ledgerEntriesFor ex OrderType.twap s j },
          returned := [],
          requests := st.requests ++
            List.replicate (j+1) (twapRequest symbol side total numSlices),
          events := st.events ++
            ((List.range j).flatMap (fun i => twapStepEvents numSlices interval (s+i)) ++
              [TwapEvent.submit (s + j + 1)]) } := by
  intro j
  induction j with
  | zero =>
      intro rem s st _h hlt hfail
      obtain ⟨rem', rfl⟩ : ∃ rem', rem = rem' + 1 := ⟨rem - 1, by omega⟩
      rw [show s + 0 = s from rfl] at hfail
      simp [twapGo, hfail, okResults, ledgerEntriesFor, insertResults]
  | succ j ih =>
      intro rem s st h hlt hfail
      obtain ⟨rem', rfl⟩ : ∃ rem', rem = rem' + 1 := ⟨rem - 1, by omega⟩
      obtain ⟨r, hr⟩ := Option.isSome_iff_exists.mp (h 0 (Nat.succ_pos j))
      rw [show s + 0 = s from rfl] at hr
      have hshift : ∀ i, i < j → (ex (s + 1 + i)).isSome := by
        intro i hi
        have h2 := h (i+1) (by omega)
        rwa [show s + (i + 1) = s + 1 + i by omega] at h2
      have hfail2 : ex (s + 1 + j) = none := by
        rwa [show s + (j+1) = s + 1 + j by omega] at hfail
      simp only [twapGo, hr]
      rw [ih rem' (s+1) _ hshift (by omega) hfail2, twapEvents_succ]
      simp only [okResults_succ, ledgerEntriesFor_succ, hr,
        Option.getD_some, recordOrder, insertResults_cons, List.replicate_succ,
        twapStepEvents]
      simp [List.append_assoc, show s + (j + 1) + 1 = s + 1 + j + 1 by omega]

lemma gridRequestsFrom_zero (symbol : String) (side : OrderSide) (quantity base : ℚ)
    (gridLevels : ℕ) (pct : ℚ) (n : ℕ) :
    gridRequestsFrom symbol side quantity base gridLevels pct 0 n =
      (List.range n).map (gridRequest symbol side quantity base gridLevels pct) :=
  map_ext_fun _ (fun i => congrArg (gridRequest symbol side quantity base gridLevels pct)
    (Nat.zero_add i))

lemma twapEvents_full (numSlices : ℕ) (interval : ℚ) :
    (List.range numSlices).flatMap (fun i => twapStepEvents numSlices interval (0 + i)) =
      twapScheduleSpec numSlices interval := by
  unfold twapScheduleSpec
  refine flatMap_ext_fun _ (fun k => ?_)
  rw [Nat.zero_add]
  unfold twapStepEvents
  exact congrArg (List.cons _) (if_congr (by omega) rfl rfl)

lemma twapEvents_failTrace (numSlices : ℕ) (interval : ℚ) (j : ℕ) (hj : j < numSlices) :
    (List.range j).flatMap (fun i => twapStepEvents numSlices interval (0 + i)) ++
      [TwapEvent.submit (0 + j + 1)] = twapFailTrace interval j := by
  unfold twapFailTrace
  rw [show 0 + j + 1 = j + 1 by omega]
  refine congrArg (· ++ [TwapEvent.submit (j+1)]) ?_
  refine List.flatMap_congr (fun k hk => ?_)
  rw [List.mem_range] at hk
  rw [Nat.zero_add]
  unfold twapStepEvents
  rw [if_pos (by omega)]

lemma quantizePrice_eval (k : ℤ) (p : ℚ) (h : p * 100 = (k : ℚ)) :
    quantizePrice p = (k : ℚ) / 100 := by
  unfold quantizePrice
  rw [h, ratTowardZero_intCast]

/-- Claim C3 (corrected): the symbol normalization of src/main.py removes
every occurrence of the exact, case-sensitive substring "USDT" (not just a
trailing one), uppercases, and appends "USDT"; the inputs "btc", "BTC" and
"BTCUSDT" all yield "BTCUSDT", but "btcusdt" yields "BTCUSDTUSDT" because
the lowercase suffix is not recognized before uppercasing.  Every
caller-facing operation submits requests under this normalized symbol. -/
theorem normalize_results :
    clean_symbol strbtc = strBTCUSDT ∧
    clean_symbol strBTC = strBTCUSDT ∧
    clean_symbol strBTCUSDT = strBTCUSDT ∧
    clean_symbol strbtcusdt = strBTCUSDTUSDT ∧
    (∀ (ex : OrderRequest → Option OrderResult) (st : BotLedger) (symbol : String)
        (side : OrderSide) (quantity : ℚ),
      (place_market_order ex st symbol side quantity).2.2.map (fun r => r.symbol) =
        [clean_symbol symbol]) :=
  ⟨by decide, by decide, by decide, by decide, fun _ _ _ _ _ => rfl⟩

/-- Counterexample to claim C3 as stated: normalizing "btcusdt" does not
give "BTCUSDT" (the code removes "USDT" case-sensitively before
uppercasing, so the result is "BTCUSDTUSDT"). -/
theorem normalize_lowercase_cex : clean_symbol strbtcusdt ≠ strBTCUSDT := by decide

/-- Claim C4 (corrected): the order-placing operations perform no local
parameter validation at all.  Whatever the quantity, price or stop price
(including zero and negative values), exactly one request is submitted to
the exchange client; no validation error exists and nothing is rejected
before the network call. -/
theorem always_submits_one_request
    (ex : OrderRequest → Option OrderResult) (st : BotLedger) (symbol : String)
    (side : OrderSide) (quantity price stop_price : ℚ) (tif : String) :
    (place_market_order ex st symbol side quantity).2.2.length = 1 ∧
    (place_limit_order ex st symbol side quantity price tif).2.2.length = 1 ∧
    (place_stop_limit_order ex st symbol side quantity price stop_price tif).2.2.length = 1 :=
  ⟨rfl, rfl, rfl⟩

/-- Counterexample to claim C4 as stated: a limit order with quantity 0
(an invalid parameter) still results in a futures_create_order call — the
submitted-request list is not empty, and the caller gets None (the same
signal as an exchange failure), not a distinguished validation error. -/
theorem no_validation_cex :
    (place_limit_order (fun _ => none) {} strBTC OrderSide.buy 0 100 strGTC).2.2 ≠ [] ∧
    (place_limit_order (fun _ => none) {} strBTC OrderSide.buy 0 100 strGTC).1 = none :=
  ⟨List.cons_ne_nil _ _, rfl⟩

/-- Claim C9 (confirmed): an OCO placement submits a single request, and
its stopLimitPrice is the supplied value when present, and defaults to
stopPrice when absent. -/
theorem oco_stop_limit_defaulting (ex : OrderRequest → Option OrderResult)
    (st : BotLedger) (symbol : String) (side : OrderSide)
    (quantity price stop_price : ℚ) :
    ((place_oco_order ex st symbol side quantity price stop_price none).2.2.map
        (fun r => r.stopLimitPrice) = [some stop_price]) ∧
    (∀ v : ℚ, (place_oco_order ex st symbol side quantity price stop_price (some v)).2.2.map
        (fun r => r.stopLimitPrice) = [some v]) ∧
    (place_oco_order ex st symbol side quantity price stop_price none).2.2.length = 1 :=
  ⟨rfl, fun _ => rfl, rfl⟩

/-- Claim C5 (corrected): the code's quantization has a fixed tick of 0.01
(the literal Decimal('0.01'); tick size is not a parameter), and it rounds
toward zero (ROUND_DOWN), not downward.  Hence: for every price p ≥ 0 the
quantized price is at most p; for every p it is an exact integer multiple
of 1/100; and quantization is idempotent.  For negative prices the result
can exceed p (see the counterexample). -/
theorem quantize_properties (p : ℚ) :
    (0 ≤ p → quantizePrice p ≤ p) ∧
    (∃ k : ℤ, quantizePrice p = (k : ℚ) / 100) ∧
    quantizePrice (quantizePrice p) = quantizePrice p :=
  ⟨fun hp => quantizePrice_le hp, ⟨ratTowardZero (p * 100), rfl⟩, quantizePrice_idem p⟩

/-- Witness for quantize_properties at the concrete price 3/2. -/
theorem quantize_properties_witness :
    0 ≤ (3/2 : ℚ) ∧ quantizePrice (3/2) ≤ 3/2 :=
  ⟨by norm_num, (quantize_properties (3/2)).1 (by norm_num)⟩

/-- Counterexample to claim C5 as stated: at the negative price p = -1/8
(reachable: BUY grid levels go negative once i·P exceeds 100), the
quantized price is -12/100, which is strictly greater than p — rounding is
toward zero, so quantizePrice(p) ≤ p fails for p < 0. -/
theorem quantize_not_below_cex : ¬ (quantizePrice (-(1/8)) ≤ -(1/8)) := by
  have hceil : ratTowardZero ((-(1/8) : ℚ) * 100) = -12 := by
    unfold ratTowardZero
    rw [if_neg (by norm_num)]
    rw [show ((-(1/8) : ℚ) * 100) = -25/2 by norm_num]
    rw [Int.ceil_eq_iff]
    constructor <;> norm_num
  unfold quantizePrice
  rw [hceil]
  norm_num

/-- Claim C7 (confirmed): grid level i is priced at
basePrice · (1 − i·P/100) for BUY and basePrice · (1 + i·P/100) for SELL,
each passed through the quantizer; the concrete scenario
PlaceGrid("BTC", BUY, 1.0, 50000, 5 levels, 2.0 percent) produces level
prices [50000, 49000, 48000, 47000, 46000], each with quantity 1/5 = 0.2,
and the executed run submits exactly those requests. -/
theorem grid_pricing :
    (∀ (base pct : ℚ) (level : ℕ),
        gridLevelPrice OrderSide.buy base pct level =
          quantizePrice (base * (1 - ((level : ℚ) * pct / 100))) ∧
        gridLevelPrice OrderSide.sell base pct level =
          quantizePrice (base * (1 + ((level : ℚ) * pct / 100)))) ∧
    ((gridRequests strBTC OrderSide.buy 1 50000 5 2).map (fun r => r.price) =
      [some 50000, some 49000, some 48000, some 47000, some 46000]) ∧
    ((gridRequests strBTC OrderSide.buy 1 50000 5 2).map (fun r => r.quantity) =
      [1/5, 1/5, 1/5, 1/5, 1/5]) ∧
    ((place_grid_order allOk strBTC OrderSide.buy 1 50000 5 2).requests =
      gridRequests strBTC OrderSide.buy 1 50000 5 2) := by
  refine ⟨fun base pct level => ⟨rfl, rfl⟩, ?_, ?_, ?_⟩
  · have e0 : gridLevelPrice OrderSide.buy 50000 2 0 = 50000 := by
      simp only [gridLevelPrice]
      rw [quantizePrice_eval 5000000 _ (by norm_num)]
      norm_num
    have e1 : gridLevelPrice OrderSide.buy 50000 2 1 = 49000 := by
      simp only [gridLevelPrice]
      rw [quantizePrice_eval 4900000 _ (by norm_num)]
      norm_num
    have e2 : gridLevelPrice OrderSide.buy 50000 2 2 = 48000 := by
      simp only [gridLevelPrice]
      rw [quantizePrice_eval 4800000 _ (by norm_num)]
      norm_num
    have e3 : gridLevelPrice OrderSide.buy 50000 2 3 = 47000 := by
      simp only [gridLevelPrice]
      rw [quantizePrice_eval 4700000 _ (by norm_num)]
      norm_num
    have e4 : gridLevelPrice OrderSide.buy 50000 2 4 = 46000 := by
      simp only [gridLevelPrice]
      rw [quantizePrice_eval 4600000 _ (by norm_num)]
      norm_num
    simp only [gridRequests, gridRequest, show List.range 5 = [0, 1, 2, 3, 4] from rfl,
      List.map_cons, List.map_nil]
    rw [e0, e1, e2, e3, e4]
  · simp only [gridRequests, gridRequest, show List.range 5 = [0, 1, 2, 3, 4] from rfl,
      List.map_cons, List.map_nil]
    norm_num
  · have hok : ∀ i, i < 5 → (allOk i).isSome := by decide
    have h := gridGo_ok allOk strBTC OrderSide.buy 1 50000 5 2 5 0 {}
      (fun i hi => by rw [Nat.zero_add]; exact hok i hi)
    unfold place_grid_order
    rw [h]
    simp [gridRequestsFrom_zero, gridRequests]

/-- Claim C6 (confirmed): for every valid grid input with N ≥ 1 levels,
nonnegative base price and nonnegative percentage, exactly N order
requests are produced, their prices are the per-level prices (BUY
non-increasing in the level index, SELL non-decreasing), and the per-level
quantities sum exactly to the total quantity (exactly, in the rational
model of Python's floats). -/
theorem grid_decomposition (symbol : String) (side : OrderSide) (quantity base : ℚ)
    (N : ℕ) (pct : ℚ) (hN : 1 ≤ N) (hbase : 0 ≤ base) (hpct : 0 ≤ pct) :
    (gridRequests symbol side quantity base N pct).length = N ∧
    ((gridRequests symbol side quantity base N pct).map (fun r => r.price) =
      (List.range N).map (fun i => some (gridLevelPrice side base pct i))) ∧
    (∀ i j : ℕ, i ≤ j →
      gridLevelPrice OrderSide.buy base pct j ≤ gridLevelPrice OrderSide.buy base pct i) ∧
    (∀ i j : ℕ, i ≤ j →
      gridLevelPrice OrderSide.sell base pct i ≤ gridLevelPrice OrderSide.sell base pct j) ∧
    ((gridRequests symbol side quantity base N pct).map (fun r => r.quantity)).sum =
      quantity := by
  have hN0 : (N : ℚ) ≠ 0 := Nat.cast_ne_zero.mpr (by omega)
  refine ⟨by simp [gridRequests], ?_, ?_, ?_, ?_⟩
  · simp only [gridRequests, List.map_map]
    rfl
  · intro i j hij
    show quantizePrice (base * (1 - (j : ℚ) * pct / 100)) ≤
      quantizePrice (base * (1 - (i : ℚ) * pct / 100))
    apply quantizePrice_mono
    have hij2 : (i : ℚ) ≤ (j : ℚ) := Nat.cast_le.mpr hij
    have h1 : (i : ℚ) * pct ≤ (j : ℚ) * pct := mul_le_mul_of_nonneg_right hij2 hpct
    have h2 : 1 - (j : ℚ) * pct / 100 ≤ 1 - (i : ℚ) * pct / 100 := by linarith
    exact mul_le_mul_of_nonneg_left h2 hbase
  · intro i j hij
    show quantizePrice (base * (1 + (i : ℚ) * pct / 100)) ≤
      quantizePrice (base * (1 + (j : ℚ) * pct / 100))
    apply quantizePrice_mono
    have hij2 : (i : ℚ) ≤ (j : ℚ) := Nat.cast_le.mpr hij
    have h1 : (i : ℚ) * pct ≤ (j : ℚ) * pct := mul_le_mul_of_nonneg_right hij2 hpct
    have h2 : 1 + (i : ℚ) * pct / 100 ≤ 1 + (j : ℚ) * pct / 100 := by linarith
    exact mul_le_mul_of_nonneg_left h2 hbase
  · simp only [gridRequests, List.map_map]
    have hconst : ((fun r => r.quantity) ∘ gridRequest symbol side quantity base N pct) =
        Function.const ℕ (quantity / (N : ℚ)) := rfl
    rw [hconst, List.map_const, List.length_range, List.sum_replicate, nsmul_eq_mul]
    rw [mul_comm, div_mul_cancel₀ _ hN0]

/-- Witness for grid_decomposition at two BUY levels on base 100, pct 1. -/
theorem grid_decomposition_witness :
    ((1 : ℕ) ≤ 2 ∧ (0 : ℚ) ≤ 100 ∧ (0 : ℚ) ≤ 1) ∧
    (gridRequests strBTC OrderSide.buy 1 100 2 1).length = 2 :=
  ⟨⟨by norm_num, by norm_num, by norm_num⟩,
   (grid_decomposition strBTC OrderSide.buy 1 100 2 1 (by norm_num) (by norm_num)
      (by norm_num)).1⟩

/-- Claim C1 (corrected): a failure at grid level j does NOT get skipped —
the whole loop sits in one try block, so the run aborts: levels j+1..N-1
are never attempted (exactly j+1 requests go out), the caller receives the
EMPTY list (not the j successful results), and only the ledger keeps the j
pre-failure records.  Only a fully successful run returns entries, namely
all N of them. -/
theorem grid_failure_aborts (ex : ℕ → Option OrderResult) (symbol : String)
    (side : OrderSide) (quantity base : ℚ) (N : ℕ) (pct : ℚ) (j : ℕ)
    (hok : ∀ i, i < j → (ex i).isSome) (hj : j < N) (hfail : ex j = none) :
    (place_grid_order ex symbol side quantity base N pct).returned = [] ∧
    (place_grid_order ex symbol side quantity base N pct).requests =
      (List.range (j+1)).map (gridRequest symbol side quantity base N pct) ∧
    (place_grid_order ex symbol side quantity base N pct).ledger.order_history.length = j ∧
    (∀ ex2 : ℕ → Option OrderResult, (∀ i, i < N → (ex2 i).isSome) →
      (place_grid_order ex2 symbol side quantity base N pct).returned = okResults ex2 0 N) := by
  have h := gridGo_fail ex symbol side quantity base N pct j N 0 {}
    (fun i hi => by rw [Nat.zero_add]; exact hok i hi) hj
    (by rw [Nat.zero_add]; exact hfail)
  unfold place_grid_order
  rw [h]
  refine ⟨rfl, ?_, ?_, ?_⟩
  · show [] ++ gridRequestsFrom symbol side quantity base N pct 0 (j+1) = _
    rw [List.nil_append, gridRequestsFrom_zero]
  · show ([] ++ ledgerEntriesFor ex OrderType.grid 0 j).length = j
    rw [List.nil_append, ledgerEntriesFor_length]
  · intro ex2 hok2
    have h2 := gridGo_ok ex2 symbol side quantity base N pct N 0 {}
      (fun i hi => by rw [Nat.zero_add]; exact hok2 i hi)
    rw [h2]
    exact List.nil_append _

/-- Witness for grid_failure_aborts: level 3 of 5 (index 2) fails. -/
theorem grid_failure_aborts_witness :
    ((2 : ℕ) < 5 ∧ failAt 2 2 = none) ∧
    (place_grid_order (failAt 2) strBTC OrderSide.buy 1 50000 5 2).returned = [] :=
  ⟨⟨by decide, by decide⟩,
   (grid_failure_aborts (failAt 2) strBTC OrderSide.buy 1 50000 5 2 2
      (by decide) (by decide) (by decide)).1⟩

/-- Counterexample to claim C1 as stated: with 5 levels and a simulated
exchange failure at level 3 (index 2), the run attempts only 3 levels (not
the remaining ones), the ledger gains 2 entries (not 4), and the returned
result is empty — in particular it does not contain N-1 = 4 entries. -/
theorem grid_failure_not_skipped_cex :
    (place_grid_order (failAt 2) strBTC OrderSide.buy 1 50000 5 2).returned = [] ∧
    (place_grid_order (failAt 2) strBTC OrderSide.buy 1 50000 5 2).requests.length = 3 ∧
    (place_grid_order (failAt 2) strBTC OrderSide.buy 1 50000 5 2).ledger.order_history.length
      = 2 ∧
    (place_grid_order (failAt 2) strBTC OrderSide.buy 1 50000 5 2).returned.length ≠ 4 :=
  ⟨by decide, by decide, by decide, by decide⟩

/-- Claim C2 (corrected): a failure on TWAP slice j+1 stops the run
immediately — later slices are never attempted (exactly j+1 submissions
happen) and the ledger keeps the j successful records — but the caller
receives the EMPTY list, not the j partial results; no terminal flag
exists, the empty list is the only failure signal. -/
theorem twap_failure_stops_and_returns_empty (ex : ℕ → Option OrderResult)
    (symbol : String) (side : OrderSide) (total : ℚ) (N : ℕ) (interval : ℚ) (j : ℕ)
    (hok : ∀ i, i < j → (ex i).isSome) (hj : j < N) (hfail : ex j = none) :
    (place_twap_order ex symbol side total N interval).returned = [] ∧
    (place_twap_order ex symbol side total N interval).ledger.order_history.length = j ∧
    (place_twap_order ex symbol side total N interval).events = twapFailTrace interval j ∧
    (place_twap_order ex symbol side total N interval).requests.length = j + 1 := by
  have h := twapGo_fail ex symbol side total N interval j N 0 {}
    (fun i hi => by rw [Nat.zero_add]; exact hok i hi) hj
    (by rw [Nat.zero_add]; exact hfail)
  unfold place_twap_order
  rw [h]
  refine ⟨rfl, ?_, ?_, ?_⟩
  · show ([] ++ ledgerEntriesFor ex OrderType.twap 0 j).length = j
    rw [List.nil_append, ledgerEntriesFor_length]
  · show [] ++ _ = _
    rw [List.nil_append]
    exact twapEvents_failTrace N interval j hj
  · show ([] ++ List.replicate (j+1) (twapRequest symbol side total N)).length = j + 1
    rw [List.nil_append, List.length_replicate]

/-- Witness for twap_failure_stops_and_returns_empty: slice 2 of 5 fails. -/
theorem twap_failure_stops_witness :
    ((1 : ℕ) < 5 ∧ failAt 1 1 = none) ∧
    (place_twap_order (failAt 1) strBTC OrderSide.buy 1 5 60).returned = [] :=
  ⟨⟨by decide, by decide⟩,
   (twap_failure_stops_and_returns_empty (failAt 1) strBTC OrderSide.buy 1 5 60 1
      (by decide) (by decide) (by decide)).1⟩

/-- Counterexample to claim C2 as stated: when slice 2 of 5 fails, one
entry is recorded in the ledger but the caller does NOT receive it — the
returned list is empty, so "exactly 1 entry recorded and returned" is
false; the event trace confirms slices 3-5 were never attempted. -/
theorem twap_failure_partial_not_returned_cex :
    (place_twap_order (failAt 1) strBTC OrderSide.buy 1 5 60).ledger.order_history.length
      = 1 ∧
    (place_twap_order (failAt 1) strBTC OrderSide.buy 1 5 60).returned.length ≠ 1 ∧
    (place_twap_order (failAt 1) strBTC OrderSide.buy 1 5 60).events =
      [TwapEvent.submit 1, TwapEvent.wait 60, TwapEvent.submit 2] :=
  ⟨by decide, by decide, by decide⟩

/-- Claim C8 (confirmed): a TWAP run with all submissions succeeding
submits slices strictly in order 1..N as MARKET orders, waits
intervalSeconds between consecutive slices, and does not wait after the
final slice — its event trace equals the schedule demanded by the spec. -/
theorem twap_schedule (ex : ℕ → Option OrderResult) (symbol : String)
    (side : OrderSide) (total : ℚ) (N : ℕ) (interval : ℚ)
    (hok : ∀ i, i < N → (ex i).isSome) :
    (place_twap_order ex symbol side total N interval).events =
      twapScheduleSpec N interval ∧
    (place_twap_order ex symbol side total N interval).requests =
      List.replicate N (twapRequest symbol side total N) ∧
    (twapRequest symbol side total N).otype = OrderType.market ∧
    (place_twap_order ex symbol side total N interval).returned = okResults ex 0 N := by
  have h := twapGo_ok ex symbol side total N interval N 0 {}
    (fun i hi => by rw [Nat.zero_add]; exact hok i hi)
  unfold place_twap_order
  rw [h]
  refine ⟨?_, List.nil_append _, rfl, List.nil_append _⟩
  show [] ++ _ = _
  rw [List.nil_append]
  exact twapEvents_full N interval

/-- Witness for twap_schedule with 3 slices and a 7 second interval. -/
theorem twap_schedule_witness :
    (∀ i, i < 3 → (allOk i).isSome) ∧
    (place_twap_order allOk strBTC OrderSide.buy 1 3 7).events = twapScheduleSpec 3 7 :=
  ⟨by decide, (twap_schedule allOk strBTC OrderSide.buy 1 3 7 (by decide)).1⟩

/-- Claim C10 (confirmed): when an exception occurs mid-run, both Grid and
TWAP return the empty list, while the bot ledger (orders map and
order_history) keeps exactly the records of the submissions that succeeded
before the failure — the returned value and the ledger diverge, so the run
is not atomic with respect to the ledger. -/
theorem runs_not_atomic :
    (∀ (ex : ℕ → Option OrderResult) (symbol : String) (side : OrderSide)
        (quantity base : ℚ) (N : ℕ) (pct : ℚ) (j : ℕ),
      (∀ i, i < j → (ex i).isSome) → j < N → ex j = none →
        (place_grid_order ex symbol side quantity base N pct).returned = [] ∧
        (place_grid_order ex symbol side quantity base N pct).ledger.order_history =
          ledgerEntriesFor ex OrderType.grid 0 j ∧
        (place_grid_order ex symbol side quantity base N pct).ledger.orders =
          insertResults [] (okResults ex 0 j)) ∧
    (∀ (ex : ℕ → Option OrderResult) (symbol : String) (side : OrderSide)
        (total : ℚ) (N : ℕ) (interval : ℚ) (j : ℕ),
      (∀ i, i < j → (ex i).isSome) → j < N → ex j = none →
        (place_twap_order ex symbol side total N interval).returned = [] ∧
        (place_twap_order ex symbol side total N interval).ledger.order_history =
          ledgerEntriesFor ex OrderType.twap 0 j) := by
  constructor
  · intro ex symbol side quantity base N pct j hok hj hfail
    have h := gridGo_fail ex symbol side quantity base N pct j N 0 {}
      (fun i hi => by rw [Nat.zero_add]; exact hok i hi) hj
      (by rw [Nat.zero_add]; exact hfail)
    unfold place_grid_order
    rw [h]
    exact ⟨rfl, List.nil_append _, rfl⟩
  · intro ex symbol side total N interval j hok hj hfail
    have h := twapGo_fail ex symbol side total N interval j N 0 {}
      (fun i hi => by rw [Nat.zero_add]; exact hok i hi) hj
      (by rw [Nat.zero_add]; exact hfail)
    unfold place_twap_order
    rw [h]
    exact ⟨rfl, List.nil_append _⟩

/-- Witness for runs_not_atomic: grid run, failure at level index 2. -/
theorem runs_not_atomic_witness :
    ((2 : ℕ) < 5 ∧ failAt 2 2 = none) ∧
    ((place_grid_order (failAt 2) strBTC OrderSide.buy 1 50000 5 2).returned = [] ∧
     (place_grid_order (failAt 2) strBTC OrderSide.buy 1 50000 5 2).ledger.order_history =
       ledgerEntriesFor (failAt 2) OrderType.grid 0 2 ∧
     (place_grid_order (failAt 2) strBTC OrderSide.buy 1 50000 5 2).ledger.orders =
       insertResults [] (okResults (failAt 2) 0 2)) :=
  ⟨⟨by decide, by decide⟩,
   runs_not_atomic.1 (failAt 2) strBTC OrderSide.buy 1 50000 5 2 2
     (by decide) (by decide) (by decide)⟩
